import Mathlib

/-!
Verification of the `grpchealth` health-checking library.

This file gives a shallow embedding of the core of the library:

* the server side (`grpchealth.go`): the `Status` enumeration, the
  `StaticChecker` registry (`Check`, `Watch`, `SetStatus`) and the
  per-subscription `watchNotifier` (`notify`, `deliverNotices`, `stop`);
* the client side (`client.go`): the `client.Watch` receive loop and its
  `stop` closure.

Pure Go functions are translated as Lean functions.  The concurrent parts
(the notifier's delivery loop racing against `notify`/`stop` callers, and the
client's receive loop racing against the stop closure) are translated as
small-step transition systems: each atomic section of the Go code (a region
executed while holding the relevant mutex, or a single atomic load / store /
compare-and-swap) becomes one step of the relation, and the scheduler's
freedom becomes the nondeterminism of the relation.  Reachability is
`Relation.ReflTransGen`.
-/

namespace GrpcHealth

/-- Status describes the health of a service (Go type `Status uint8`;
only the three named values are ever produced by this package). -/
inductive Status where
  | unknown
  | serving
  | notServing
deriving DecidableEq, Repr

/-- Model of Go `error` values as used by this package: `context.Canceled`,
`context.DeadlineExceeded`, errors wrapping another error (`fmt.Errorf`
with `%w`, or connect's error wrapping), and connect errors carrying a code
(`connect.NewError(code, ...)`). -/
inductive GoErr where
  | canceled
  | deadlineExceeded
  | wrapped (inner : GoErr)
  | errorCode (code : Nat) (msg : String)
deriving DecidableEq, Repr

/-- Model of `errors.Is(e, target)`: walks the unwrap chain. -/
def errorsIs (e target : GoErr) : Bool :=
  if e = target then true
  else
    match e with
    | GoErr.wrapped inner => errorsIs inner target
    | _ => false

/-- An error wrapping (or equal to) `context.Canceled` or
`context.DeadlineExceeded`. -/
def isCancellationDerived (e : GoErr) : Bool :=
  errorsIs e GoErr.canceled || errorsIs e GoErr.deadlineExceeded

/-- The numeric value of `connect.CodeNotFound`. -/
def codeNotFound : Nat := 5

/-- The error built by `StaticChecker.Check` / `StaticChecker.Watch` for an
unknown service: `connect.NewError(connect.CodeNotFound,
fmt.Errorf("unknown service %s", service))`. -/
def notFoundErr (service : String) : GoErr :=
  GoErr.errorCode codeNotFound ("unknown service " ++ service)

/-- Recognizes a `connect.CodeNotFound` error. -/
def isNotFound : GoErr → Bool
  | GoErr.errorCode c _ => c = codeNotFound
  | _ => false

/-- One invocation of the subscriber callback `onUpdate`: either a status
update (`onUpdate(&CheckResponse{Status: status}, nil)`) or a terminal error
(`onUpdate(nil, err)`). -/
inductive Delivery where
  | ok (status : Status)
  | fail (e : GoErr)
deriving DecidableEq, Repr

/-- Mutable fields of Go's `watchNotifier` (the callback itself is kept
outside the state; invoking it is modelled as appending to a trace).
`stopped` is the `atomic.Bool`; `delivering`, `status` and `err` are the
fields guarded by the notifier's mutex `w.mu`. -/
structure WatchNotifier where
  stopped : Bool
  delivering : Bool
  status : Status
  err : Option GoErr
deriving DecidableEq, Repr

/-- Embedding of `watchNotifier.notify(status, err)`.  The whole body runs
while holding `w.mu`, so it is a single atomic step.  The returned `Bool`
records whether the call started a new delivery goroutine
(`go w.deliverNotices()`). -/
def notify (w : WatchNotifier) (status : Status) (err : Option GoErr) :
    WatchNotifier × Bool :=
  if w.err ≠ none then
    (w, false)      -- already delivered final notice
  else if err = none ∧ w.status = status then
    (w, false)      -- no change to deliver
  else if w.stopped then
    (w, false)      -- stopped, so don't deliver anymore
  else if w.delivering = false then
    ({ w with status := status, err := err, delivering := true }, true)
  else
    ({ w with status := status, err := err }, false)

/-- Control state of the (unique) running `deliverNotices` goroutine.
`idle` means no goroutine is running; `run prev first` is the top of the
`for` loop with locals `prevStatus = prev` and `first`; `act` holds the
snapshot `(snap, serr)` of `(w.status, w.err)` taken under `w.mu`, after the
mutex was released and before the snapshot is acted upon; `done` means the
goroutine returned without clearing `delivering` (the error / stopped
exits). -/
inductive LoopCtl where
  | idle
  | run (prev : Status) (first : Bool)
  | act (prev : Status) (first : Bool) (snap : Status) (serr : Option GoErr)
  | done
deriving DecidableEq, Repr

/-- State of one subscription: the notifier's fields, the delivery
goroutine's control state, the trace of callback invocations made so far,
and a history flag recording whether the subscription's `stop` function was
ever called (used to state at-most-once properties). -/
structure NState where
  w : WatchNotifier
  loop : LoopCtl
  delivered : List Delivery
  stopCalled : Bool
deriving DecidableEq, Repr

/-- Effect of a `notify(st, e)` call on a subscription state.  If the call
spawns a delivery goroutine, the new goroutine starts at the top of the loop
with zero-valued locals (`var prevStatus Status` is `StatusUnknown`,
`first := true`). -/
def applyNotify (n : NState) (st : Status) (e : Option GoErr) : NState :=
  let p := notify n.w st e
  { n with
    w := p.1
    loop := if p.2 then LoopCtl.run Status.unknown true else n.loop }

/-- Effect of `watchNotifier.stop()`: a single atomic store
`w.stopped.Store(true)`. -/
def applyStop (n : NState) : NState :=
  { n with w := { n.w with stopped := true }, stopCalled := true }

/-- Embedding of the locked section at the top of `deliverNotices`'s loop:
take `w.mu`, snapshot `(w.status, w.err)`, exit the loop (clearing
`delivering`) if there is no change to deliver, otherwise release the mutex
and move on with the snapshot. -/
def applySnap (n : NState) (prev : Status) (first : Bool) : NState :=
  if first = false ∧ n.w.status = prev ∧ n.w.err = none then
    { n with w := { n.w with delivering := false }, loop := LoopCtl.idle }
  else
    { n with loop := LoopCtl.act prev first n.w.status n.w.err }

/-- Embedding of the rest of `deliverNotices`'s loop body, acting on the
snapshot `(snap, serr)`:

* if `serr` is set, perform `w.stopped.CompareAndSwap(false, true)` and, only
  on success, invoke the callback with the error; then return;
* otherwise, check `w.stopped.Load()` and return if stopped, else invoke the
  callback with the status and continue the loop with
  `prevStatus := snap, first := false`. -/
def applyAct (n : NState) (snap : Status) (serr : Option GoErr) : NState :=
  match serr with
  | some e =>
    if n.w.stopped = false then
      { n with
        w := { n.w with stopped := true }
        delivered := n.delivered ++ [Delivery.fail e]
        loop := LoopCtl.done }
    else
      { n with loop := LoopCtl.done }
  | none =>
    if n.w.stopped = true then
      { n with loop := LoopCtl.done }
    else
      { n with
        delivered := n.delivered ++ [Delivery.ok snap]
        loop := LoopCtl.run snap false }

/-- Small-step relation for one subscription's notifier interacting with an
arbitrary environment: the environment may call `notify` with any arguments
(`SetStatus` fan-out passes a status and `nil`; the `context.AfterFunc`
callback passes `ctx.Err()`) and may call `stop()` at any time; the delivery
goroutine takes its own steps. -/
inductive NStep : NState → NState → Prop where
  | notifyStep (n : NState) (st : Status) (e : Option GoErr) :
      NStep n (applyNotify n st e)
  | stopStep (n : NState) :
      NStep n (applyStop n)
  | snapStep (n : NState) (prev : Status) (first : Bool)
      (h : n.loop = LoopCtl.run prev first) :
      NStep n (applySnap n prev first)
  | actStep (n : NState) (prev : Status) (first : Bool) (snap : Status)
      (serr : Option GoErr)
      (h : n.loop = LoopCtl.act prev first snap serr) :
      NStep n (applyAct n snap serr)

/-- Subscription state immediately after `StaticChecker.Watch` returns for a
registered name with current status `st`: `newNotifier` has synchronously
delivered the initial status (see `newNotifier` below) and its delivery loop
has exited, clearing `delivering`. -/
def nInit (st : Status) : NState :=
  { w := { stopped := false, delivering := false, status := st, err := none }
    loop := LoopCtl.idle
    delivered := [Delivery.ok st]
    stopCalled := false }

/-- Embedding of the `deliverNotices` loop run sequentially with no
interference, used for the synchronous call in `newNotifier` (which happens
while the registry's write lock is held, so no `notify` or `stop` can run
concurrently).  `fuel` bounds the number of iterations; the uninterfered run
needs two.  Returns the final notifier fields and the callback invocations
made. -/
def deliverNotices (fuel : Nat) (w : WatchNotifier) (prev : Status)
    (first : Bool) : WatchNotifier × List Delivery :=
  match fuel with
  | 0 => (w, [])
  | fuel + 1 =>
    if first = false ∧ w.status = prev ∧ w.err = none then
      ({ w with delivering := false }, [])
    else
      match w.err with
      | some e =>
        if w.stopped = false then
          ({ w with stopped := true }, [Delivery.fail e])
        else
          (w, [])
      | none =>
        if w.stopped = true then
          (w, [])
        else
          let rest := deliverNotices fuel w w.status false
          (rest.1, Delivery.ok w.status :: rest.2)

/-- Embedding of `newNotifier(notifyFn, status)`: builds the notifier with
`delivering = true` and runs `deliverNotices` synchronously to deliver the
initial status. -/
def newNotifier (fuel : Nat) (status : Status) :
    WatchNotifier × List Delivery :=
  let w : WatchNotifier :=
    { stopped := false, delivering := true, status := status, err := none }
  deliverNotices fuel w Status.unknown true

/-- Registry fields of Go's `StaticChecker`.  The `statuses` map is a
function to `Option Status` (absence of a key is `none`); `watchers` keeps,
per service name, the ids of the registered subscriptions (the notifier
state attached to each id is modelled separately by `NState`); `watchCount`
is the id counter. -/
structure StaticChecker where
  statuses : String → Option Status
  watchers : String → List Int
  watchCount : Int

/-- Embedding of `NewStaticChecker(services...)`: every supplied service
starts at `StatusServing`, no watchers. -/
def NewStaticChecker (services : List String) : StaticChecker :=
  { statuses := fun n => if n ∈ services then some Status.serving else none
    watchers := fun _ => []
    watchCount := 0 }

/-- Embedding of `StaticChecker.SetStatus(service, status)` as it affects
the registry itself: registers the service if necessary and updates its
status.  The fan-out (`watcher.notify(status, nil)` for every watcher of
`service`, still under the write lock) is modelled per-subscription by
`applyNotify`; the returned list is the set of subscription ids that are
notified. -/
def SetStatus (c : StaticChecker) (service : String) (status : Status) :
    StaticChecker × List Int :=
  ({ c with
      statuses := fun n => if n = service then some status else c.statuses n },
   c.watchers service)

/-- Embedding of `StaticChecker.Check(req)`: the pair is (registry after the
call, result), making it explicit that the call does not mutate the
registry. -/
def Check (c : StaticChecker) (service : String) :
    StaticChecker × Except GoErr Status :=
  match c.statuses service with
  | some status => (c, Except.ok status)
  | none =>
    if service = "" then (c, Except.ok Status.serving)
    else (c, Except.error (notFoundErr service))

/-- Result of `StaticChecker.Watch`: either the not-found path (a goroutine
is spawned that calls `onUpdate(nil, err)` once, and the returned stop
function is `func() {}`), or a registered subscription carrying the id under
which it was stored, the status the notifier was seeded with, and the
callback invocations `newNotifier` made synchronously. -/
inductive WatchResult where
  | notFoundAsync (e : GoErr)
  | subscribed (service : String) (id : Int) (initStatus : Status)
      (initialDeliveries : List Delivery)
deriving Repr

/-- The calls made by the goroutine spawned by `StaticChecker.Watch`, if
any: the unregistered-non-empty path spawns `go onUpdate(nil, err)`, a
single terminal error invocation; the subscribed path spawns nothing at
creation time. -/
def watchAsyncDeliveries : WatchResult → List Delivery
  | WatchResult.notFoundAsync e => [Delivery.fail e]
  | WatchResult.subscribed _ _ _ _ => []

/-- Registry effect of calling the stop function returned by
`StaticChecker.Watch`: the not-found path returns `func() {}`; the
subscribed path calls `notifier.stop()` (modelled on the notifier side by
`applyStop`) and `c.deleteWatcher(service, watcherID)`. -/
def watchStop : WatchResult → StaticChecker → StaticChecker
  | WatchResult.notFoundAsync _, c => c
  | WatchResult.subscribed service id _ _, c =>
    { c with
      watchers := fun n =>
        if n = service then (c.watchers n).filter (fun i => i != id)
        else c.watchers n }

/-- Registered-name path of `StaticChecker.Watch`: build the notifier with
the resolved status (delivering the initial status synchronously), then
store it under a fresh id. -/
def subscribe (fuel : Nat) (c : StaticChecker) (service : String)
    (st : Status) : StaticChecker × WatchResult :=
  let nn := newNotifier fuel st
  let id := c.watchCount
  ({ c with
      watchCount := c.watchCount + 1
      watchers := fun n =>
        if n = service then id :: c.watchers n else c.watchers n },
   WatchResult.subscribed service id st nn.2)

/-- Embedding of `StaticChecker.Watch(ctx, req, onUpdate)`.  The whole body
runs under the registry's write lock.  For an unregistered non-empty name it
spawns a single asynchronous NotFound delivery and registers nothing; an
unregistered empty name defaults to `StatusServing`. -/
def Watch (fuel : Nat) (c : StaticChecker) (service : String) :
    StaticChecker × WatchResult :=
  match c.statuses service with
  | some st => subscribe fuel c service st
  | none =>
    if service ≠ "" then
      (c, WatchResult.notFoundAsync (notFoundErr service))
    else
      subscribe fuel c service Status.serving

/-- Events on the timeline of a single registry operation, used to state
where the subscriber callback runs relative to the registry lock `c.mu`. -/
inductive Event where
  | lock
  | unlock
  | writeStatus (service : String) (st : Status)
  | record (st : Status) (e : Option GoErr)
  | deliver (d : Delivery)
deriving DecidableEq, Repr

/-- Timeline of `StaticChecker.SetStatus(service, st)`: take the write lock,
write the map entry, call `notify(st, nil)` on each watcher of `service`
(which only records the pending state and possibly spawns a goroutine — it
never invokes the callback itself), release the lock. -/
def setStatusEvents (c : StaticChecker) (service : String) (st : Status) :
    List Event :=
  Event.lock ::
    Event.writeStatus service st ::
      ((c.watchers service).map (fun _ => Event.record st none) ++
        [Event.unlock])

/-- Timeline of `StaticChecker.Watch(ctx, req, onUpdate)`: the write lock is
held for the whole body, and for a name that resolves to a status the body
calls `newNotifier`, which synchronously invokes the callback with the
initial status.  The unregistered-non-empty path performs its delivery in a
spawned goroutine, outside the lock, so only the lock events appear. -/
def watchEvents (fuel : Nat) (c : StaticChecker) (service : String) :
    List Event :=
  Event.lock ::
    ((match c.statuses service with
      | some st => (newNotifier fuel st).2.map Event.deliver
      | none =>
        if service ≠ "" then []
        else (newNotifier fuel Status.serving).2.map Event.deliver) ++
      [Event.unlock])

/-- Number of `deliver` events that occur while the registry lock is held,
starting from lock depth `d`. -/
def countLockedDeliveries : List Event → Nat → Nat
  | [], _ => 0
  | Event.lock :: rest, d => countLockedDeliveries rest (d + 1)
  | Event.unlock :: rest, d => countLockedDeliveries rest (d - 1)
  | Event.deliver _ :: rest, d =>
    (if 0 < d then 1 else 0) + countLockedDeliveries rest d
  | _ :: rest, d => countLockedDeliveries rest d

/-- The statuses among a trace of callback invocations (the arguments of the
non-error invocations, in order). -/
def okStatuses (l : List Delivery) : List Status :=
  l.filterMap (fun d =>
    match d with
    | Delivery.ok st => some st
    | Delivery.fail _ => none)

/-- Whether a callback invocation is a terminal error delivery. -/
def isFail : Delivery → Bool
  | Delivery.fail _ => true
  | Delivery.ok _ => false

/-- Number of terminal error deliveries in a trace. -/
def failCount (l : List Delivery) : Nat :=
  l.countP isFail

/-- Removes consecutive duplicates from a list of statuses. -/
def dedupConsec : List Status → List Status
  | [] => []
  | [a] => [a]
  | a :: b :: rest =>
    if a = b then dedupConsec (b :: rest) else a :: dedupConsec (b :: rest)

/-- System for one watcher of a fixed service name running concurrently with
a sequence of `SetStatus` calls on that name: `pending` are the statuses not
yet written, `written` those already written (each write runs under the
registry's write lock and, still under it, calls `notify` on this watcher —
the `writeStep` below), and `n` is the subscription's state. -/
structure WSys where
  pending : List Status
  written : List Status
  n : NState
deriving DecidableEq, Repr

/-- Steps of the writer/watcher system: the writer performs the next
`SetStatus` (atomically updating the registry and notifying this watcher),
and the watcher's delivery goroutine takes its own steps.  The watcher is
neither stopped nor cancelled in this system. -/
inductive WStep : WSys → WSys → Prop where
  | writeStep (s : WSys) (st : Status) (rest : List Status)
      (h : s.pending = st :: rest) :
      WStep s
        { pending := rest
          written := s.written ++ [st]
          n := applyNotify s.n st none }
  | snapStep (s : WSys) (prev : Status) (first : Bool)
      (h : s.n.loop = LoopCtl.run prev first) :
      WStep s { s with n := applySnap s.n prev first }
  | actStep (s : WSys) (prev : Status) (first : Bool) (snap : Status)
      (serr : Option GoErr)
      (h : s.n.loop = LoopCtl.act prev first snap serr) :
      WStep s { s with n := applyAct s.n snap serr }

/-- Initial state of the writer/watcher system: the watcher has just been
created on a name whose status was `s0` (so the initial status has been
delivered synchronously and the delivery loop is idle), and the writes `ws`
are still to come. -/
def wInit (s0 : Status) (ws : List Status) : WSys :=
  { pending := ws, written := [], n := nInit s0 }

/-- Client-side state of `client.Watch`'s receive loop and stop closure:
`stopped` is the `atomic.Bool`, `cancelled` the state of the
`context.WithCancel` context, `recvError` the `atomic.Value`, `workerDone`
whether the goroutine has returned (its `workerDone` channel is closed
last, after the `results` channel is closed and the context cancelled), and
`sent` the statuses pushed into the `results` channel so far. -/
structure ClientState where
  stopped : Bool
  cancelled : Bool
  recvError : Option GoErr
  workerDone : Bool
  resultsClosed : Bool
  sent : List Status
deriving DecidableEq, Repr

/-- Client state right after a successful `CallServerStream`. -/
def cInit : ClientState :=
  { stopped := false
    cancelled := false
    recvError := none
    workerDone := false
    resultsClosed := false
    sent := [] }

/-- Exit path of the receive loop when `stream.Receive()` returns false:
`err := stream.Err(); closeErr := stream.Close()`; store `err` unless it is
a cancellation error and the termination was caller-initiated, else store
`closeErr` if non-nil; then run the deferred `cancel()`, `close(results)`
and `close(workerDone)`. -/
def applyRecvFail (s : ClientState) (streamErr closeErr : Option GoErr) :
    ClientState :=
  { s with
    recvError :=
      match streamErr with
      | some e =>
        if ¬errorsIs e GoErr.canceled ∨ s.stopped = false then some e
        else closeErr
      | none => closeErr
    cancelled := true
    resultsClosed := true
    workerDone := true }

/-- Exit path of the receive loop when the `select` takes `<-ctx.Done()`
while trying to push a received status: store `ctx.Err()` unless it is a
cancellation error and the termination was caller-initiated; then run the
deferred cleanup.  (`stream.Close` is not called on this path.) -/
def applyRecvDone (s : ClientState) (ctxErr : GoErr) : ClientState :=
  { s with
    recvError :=
      if ¬errorsIs ctxErr GoErr.canceled ∨ s.stopped = false then some ctxErr
      else s.recvError
    cancelled := true
    resultsClosed := true
    workerDone := true }

/-- Steps of the client system.  `stopCall` is the body of the stop closure
up to `<-workerDone` (`stopped.Store(true); cancel()`; reading the result is
modelled by inspecting `recvError` of a state with `workerDone = true`).
`recvSend` is a successful `stream.Receive()` whose message is pushed into
the channel; `recvFail` and `recvDone` are the two exit paths, with the
stream / context errors chosen by the environment (`ctx.Err()` is exactly
`context.Canceled` or `context.DeadlineExceeded`, and `context.Canceled`
only once the context has been cancelled). -/
inductive CStep : ClientState → ClientState → Prop where
  | stopCall (s : ClientState) :
      CStep s { s with stopped := true, cancelled := true }
  | recvSend (s : ClientState) (st : Status) (h : s.workerDone = false) :
      CStep s { s with sent := s.sent ++ [st] }
  | recvFail (s : ClientState) (streamErr closeErr : Option GoErr)
      (h : s.workerDone = false) :
      CStep s (applyRecvFail s streamErr closeErr)
  | recvDone (s : ClientState) (ctxErr : GoErr) (h : s.workerDone = false)
      (hkind : ctxErr = GoErr.canceled ∨ ctxErr = GoErr.deadlineExceeded)
      (hcanc : ctxErr = GoErr.canceled → s.cancelled = true) :
      CStep s (applyRecvDone s ctxErr)

/-- Result of `client.Watch` when the initial `CallServerStream` call fails
with error `e`: the `results` channel is closed immediately, the error is
returned, and the returned stop closure is `func() error { return err }`. -/
structure FailHandle where
  resultsClosed : Bool
  returnedErr : Option GoErr
  stopFn : Unit → Option GoErr

/-- Embedding of the early-return path of `client.Watch`:
`close(results); cancel(); return results, func() error { return err },
err`. -/
def watchCallFailed (e : GoErr) : FailHandle :=
  { resultsClosed := true
    returnedErr := some e
    stopFn := fun _ => some e }

/-! ## Theorems -/

/-- C3: for every watch notifier state and every call `notify(status, err)`:
if an error is already recorded, or if `err` is nil and `status` equals the
currently recorded status, or if the notifier is stopped, the call leaves
the notifier state unchanged and delivers nothing (it never invokes the
callback itself); otherwise it records `(status, err)` and, exactly when no
delivery loop is currently running, starts one asynchronously (the returned
flag). -/
theorem c3_notify_noop_or_record (w : WatchNotifier) (st : Status)
    (e : Option GoErr) :
    notify w st e =
      if w.err ≠ none ∨ (e = none ∧ w.status = st) ∨ w.stopped = true then
        (w, false)
      else
        ({ w with status := st, err := e, delivering := true },
          !w.delivering) := by
  obtain ⟨sp, dv, st0, er⟩ := w
  simp only [notify]
  split_ifs <;> simp_all

/-- C4: for every registry state and service name, `Check` returns the
registered status when the name is registered, `StatusServing` when the name
is empty and unregistered, and a NotFound error when the name is non-empty
and unregistered; and the call never mutates the registry. -/
theorem c4_check_cases (c : StaticChecker) (service : String) :
    (Check c service).1 = c ∧
    (∀ st, c.statuses service = some st →
      (Check c service).2 = Except.ok st) ∧
    (c.statuses service = none → service = "" →
      (Check c service).2 = Except.ok Status.serving) ∧
    (c.statuses service = none → service ≠ "" →
      (Check c service).2 = Except.error (notFoundErr service) ∧
        isNotFound (notFoundErr service) = true) := by
  unfold Check
  refine ⟨?_, ?_, ?_, ?_⟩
  · cases h : c.statuses service
    · simp [h]
      split
      · rfl
      · rfl
    · simp [h]
  · intro st h
    simp [h]
  · intro h h0
    subst h0
    simp [h]
  · intro h h0
    simp [h, h0, isNotFound, codeNotFound, notFoundErr]

/-- C4 witness: checking an unregistered non-empty name on a concrete empty
registry fails with NotFound and leaves the registry unchanged; checking the
empty name returns Serving. -/
theorem c4_check_cases_witness :
    (Check { statuses := fun _ => none, watchers := fun _ => [],
             watchCount := 0 } "acme.user.v1.UserService").2 =
      Except.error (notFoundErr "acme.user.v1.UserService") ∧
    (Check { statuses := fun _ => none, watchers := fun _ => [],
             watchCount := 0 } "").2 = Except.ok Status.serving := by
  refine ⟨((c4_check_cases _ "acme.user.v1.UserService").2.2.2 rfl
    (by decide)).1, (c4_check_cases _ "").2.2.1 rfl rfl⟩

/-- C10: when the initial server-stream call of `client.Watch` fails with
error `e`, the call returns that error together with an already-closed
results channel and a stop function, and every invocation of that stop
function returns exactly the error `Watch` returned. -/
theorem c10_watch_call_failed (e : GoErr) :
    (watchCallFailed e).returnedErr = some e ∧
    (watchCallFailed e).resultsClosed = true ∧
    (∀ u : Unit, (watchCallFailed e).stopFn u = (watchCallFailed e).returnedErr) := by
  refine ⟨rfl, rfl, fun _ => rfl⟩

theorem getLast?_cons_of_ne_nil {a : Status} {l : List Status} (h : l ≠ []) :
    (a :: l).getLast? = l.getLast? := by
  cases l with
  | nil => exact absurd rfl h
  | cons b t => simp [List.getLast?_cons_cons]

theorem dedupConsec_ne_nil {l : List Status} (h : l ≠ []) :
    dedupConsec l ≠ [] := by
  induction l with
  | nil => exact absurd rfl h
  | cons a t ih =>
    cases t with
    | nil => simp [dedupConsec]
    | cons b t2 =>
      have hne : b :: t2 ≠ [] := by simp
      simp only [dedupConsec]
      split
      · exact ih hne
      · simp

theorem getLast?_dedupConsec (l : List Status) :
    (dedupConsec l).getLast? = l.getLast? := by
  induction l with
  | nil => rfl
  | cons a t ih =>
    cases t with
    | nil => rfl
    | cons b t2 =>
      simp only [dedupConsec]
      split
      · rw [ih, List.getLast?_cons_cons]
      · rw [getLast?_cons_of_ne_nil (dedupConsec_ne_nil (by simp)), ih,
          List.getLast?_cons_cons]

theorem dedupConsec_concat_eq {l : List Status} {x : Status}
    (h : l.getLast? = some x) : dedupConsec (l ++ [x]) = dedupConsec l := by
  induction l with
  | nil => simp at h
  | cons a t ih =>
    cases t with
    | nil =>
      simp only [List.getLast?_singleton, Option.some_inj] at h
      subst h
      simp [dedupConsec]
    | cons b t2 =>
      rw [List.getLast?_cons_cons] at h
      have := ih h
      simp only [List.cons_append, dedupConsec] at this ⊢
      split
      · exact this
      · simp only [List.append_eq]
        rw [this]

theorem dedupConsec_concat_ne {l : List Status} {x y : Status}
    (h : l.getLast? = some y) (hne : x ≠ y) :
    dedupConsec (l ++ [x]) = dedupConsec l ++ [x] := by
  induction l with
  | nil => simp at h
  | cons a t ih =>
    cases t with
    | nil =>
      simp only [List.getLast?_singleton, Option.some_inj] at h
      subst h
      simp [dedupConsec, hne.symm]
    | cons b t2 =>
      rw [List.getLast?_cons_cons] at h
      have := ih h
      simp only [List.cons_append, dedupConsec] at this ⊢
      split
      · exact this
      · simp only [List.append_eq]
        rw [this, List.cons_append]

theorem newNotifier_eval {fuel : Nat} (st : Status) (h : 2 ≤ fuel) :
    newNotifier fuel st =
      ({ stopped := false, delivering := false, status := st, err := none },
        [Delivery.ok st]) := by
  obtain ⟨n, rfl⟩ : ∃ n, fuel = n + 2 := ⟨fuel - 2, by omega⟩
  simp [newNotifier, deliverNotices]

theorem wstep_delivered_extends {s s' : WSys} (h : WStep s s') :
    ∃ t, s'.n.delivered = s.n.delivered ++ t := by
  cases h with
  | writeStep st rest h => exact ⟨[], by simp [applyNotify]⟩
  | snapStep prev first h =>
    unfold applySnap
    split
    · exact ⟨[], by simp⟩
    · exact ⟨[], by simp⟩
  | actStep prev first snap serr h =>
    unfold applyAct
    cases serr with
    | some e =>
      simp only
      split
      · exact ⟨[Delivery.fail e], by simp⟩
      · exact ⟨[], by simp⟩
    | none =>
      simp only
      split
      · exact ⟨[], by simp⟩
      · exact ⟨[Delivery.ok snap], by simp⟩

theorem wstep_head_preserved {s s' : WSys} (h : WStep s s')
    (hne : s.n.delivered ≠ []) :
    s'.n.delivered.head? = s.n.delivered.head? ∧ s'.n.delivered ≠ [] := by
  obtain ⟨t, ht⟩ := wstep_delivered_extends h
  obtain ⟨d, ds, hd⟩ := List.exists_cons_of_ne_nil hne
  rw [ht, hd]
  simp

/-- C5: for every watch on a registered name (or on the empty name, which
defaults to Serving when unregistered), the first value delivered to the
subscriber callback is the status recorded in the registry at the moment the
subscription was created: `Watch` seeds the notifier with the looked-up
status and `newNotifier` synchronously delivers exactly that status first;
all later activity of the subscription only appends to the delivery trace,
so this first delivery stays first. -/
theorem c5_first_delivery :
    (∀ fuel (c : StaticChecker) service st, 2 ≤ fuel →
      c.statuses service = some st →
      (Watch fuel c service).2 =
        WatchResult.subscribed service c.watchCount st [Delivery.ok st]) ∧
    (∀ fuel (c : StaticChecker) service, 2 ≤ fuel →
      c.statuses service = none → service = "" →
      (Watch fuel c service).2 =
        WatchResult.subscribed service c.watchCount Status.serving
          [Delivery.ok Status.serving]) ∧
    (∀ s0 ws s, Relation.ReflTransGen WStep (wInit s0 ws) s →
      s.n.delivered.head? = some (Delivery.ok s0)) := by
  refine ⟨?_, ?_, ?_⟩
  · intro fuel c service st hfuel hreg
    unfold Watch
    simp [hreg, subscribe, newNotifier_eval st hfuel]
  · intro fuel c service hfuel hunreg hempty
    subst hempty
    unfold Watch
    simp [hunreg, subscribe, newNotifier_eval Status.serving hfuel]
  · intro s0 ws s hreach
    have key : s.n.delivered.head? = some (Delivery.ok s0) ∧
        s.n.delivered ≠ [] := by
      induction hreach with
      | refl => exact ⟨rfl, by simp [wInit, nInit]⟩
      | tail hsteps hstep ih =>
        obtain ⟨ihh, ihne⟩ := ih
        obtain ⟨hh, hne⟩ := wstep_head_preserved hstep ihne
        exact ⟨hh.trans ihh, hne⟩
    exact key.1

/-- C5 witness: on a concrete registry where the empty name is unregistered,
watching the empty name subscribes with initial status Serving and first
delivery Serving. -/
theorem c5_first_delivery_witness :
    (Watch 2 { statuses := fun _ => none, watchers := fun _ => [],
               watchCount := 0 } "").2 =
      WatchResult.subscribed "" 0 Status.serving
        [Delivery.ok Status.serving] :=
  c5_first_delivery.2.1 2 _ "" (by decide) rfl rfl

/-- C6: for every watch request on a non-empty unregistered service name,
the watch takes the async-NotFound path: exactly one terminal NotFound error
is delivered asynchronously to the callback, no status delivery ever occurs
for that watch, the registry (watcher set and id counter included) is left
unchanged, and the returned stop handle is a no-op. -/
theorem c6_watch_unregistered (fuel : Nat) (c : StaticChecker)
    (service : String) (hne : service ≠ "")
    (hunreg : c.statuses service = none) :
    (Watch fuel c service).1 = c ∧
    (Watch fuel c service).2 =
      WatchResult.notFoundAsync (notFoundErr service) ∧
    watchAsyncDeliveries (Watch fuel c service).2 =
      [Delivery.fail (notFoundErr service)] ∧
    isNotFound (notFoundErr service) = true ∧
    (∀ c' : StaticChecker, watchStop (Watch fuel c service).2 c' = c') := by
  unfold Watch
  simp [hunreg, hne, watchAsyncDeliveries, watchStop, isNotFound,
    notFoundErr, codeNotFound]

/-- C6 witness: watching the unregistered name "foobar" on a concrete empty
registry returns the async NotFound result whose only delivery is the
terminal NotFound error. -/
theorem c6_watch_unregistered_witness :
    (Watch 2 { statuses := fun _ => none, watchers := fun _ => [],
               watchCount := 0 } "foobar").2 =
      WatchResult.notFoundAsync (notFoundErr "foobar") ∧
    watchAsyncDeliveries
      (Watch 2 { statuses := fun _ => none, watchers := fun _ => [],
                 watchCount := 0 } "foobar").2 =
      [Delivery.fail (notFoundErr "foobar")] := by
  have h := c6_watch_unregistered 2
    { statuses := fun _ => none, watchers := fun _ => [], watchCount := 0 }
    "foobar" (by decide) rfl
  exact ⟨h.2.1, h.2.2.1⟩

theorem countLockedDeliveries_eq_zero {evs : List Event}
    (h : ∀ d0, Event.deliver d0 ∉ evs) (k : Nat) :
    countLockedDeliveries evs k = 0 := by
  induction evs generalizing k with
  | nil => rfl
  | cons ev rest ih =>
    have hrest : ∀ d0, Event.deliver d0 ∉ rest := by
      intro d0 hmem
      exact h d0 (List.mem_cons_of_mem _ hmem)
    cases ev with
    | lock => simpa [countLockedDeliveries] using ih hrest (k + 1)
    | unlock => simpa [countLockedDeliveries] using ih hrest (k - 1)
    | writeStatus service st => simpa [countLockedDeliveries] using ih hrest k
    | record st e => simpa [countLockedDeliveries] using ih hrest k
    | deliver d => exact absurd (List.mem_cons_self _ _) (h d)

/-- C7 (amended): the fan-out performed by `SetStatus` while holding the
registry's write lock never invokes the subscriber callback — `notify` only
records the update (and possibly spawns the asynchronous delivery loop,
which runs outside the lock) — but, contrary to the original claim, the
initial delivery made when a subscription is created is synchronous: for a
name that resolves to a status, `Watch` invokes the callback exactly once
while the registry write lock is held. -/
theorem c7_delivery_locking_amended :
    (∀ (c : StaticChecker) service st,
      countLockedDeliveries (setStatusEvents c service st) 0 = 0) ∧
    (∀ fuel (c : StaticChecker) service st, 2 ≤ fuel →
      c.statuses service = some st →
      countLockedDeliveries (watchEvents fuel c service) 0 = 1) := by
  constructor
  · intro c service st
    apply countLockedDeliveries_eq_zero
    intro d0
    simp [setStatusEvents]
  · intro fuel c service st hfuel hreg
    simp [watchEvents, hreg, newNotifier_eval st hfuel, countLockedDeliveries]

/-- C7 amended witness: on a concrete registry, `SetStatus` performs no
delivery under the lock while `Watch` on a registered name performs exactly
one. -/
theorem c7_delivery_locking_amended_witness :
    countLockedDeliveries
      (setStatusEvents
        { statuses := fun _ => some Status.serving,
          watchers := fun _ => [0, 1], watchCount := 2 }
        "svc" Status.notServing) 0 = 0 ∧
    countLockedDeliveries
      (watchEvents 2
        { statuses := fun _ => some Status.serving,
          watchers := fun _ => [], watchCount := 0 } "svc") 0 = 1 :=
  ⟨c7_delivery_locking_amended.1 _ "svc" Status.notServing,
    c7_delivery_locking_amended.2 2 _ "svc" Status.serving (by decide) rfl⟩

/-- C7 counterexample: the claim that the subscriber callback is never
invoked while the registry's lock is held — including the initial delivery
made when the subscription is created — is false: on a concrete registry
with a registered service, `Watch` invokes the callback once while the
write lock is held (`newNotifier` runs `deliverNotices` synchronously
inside the locked section of `Watch`). -/
theorem c7_delivery_locking_cex :
    countLockedDeliveries
      (watchEvents 2
        { statuses := fun n =>
            if n = "acme.user.v1.UserService" then some Status.serving
            else none,
          watchers := fun _ => [], watchCount := 0 }
        "acme.user.v1.UserService") 0 ≠ 0 := by
  decide

theorem cstep_done_stable {s s' : ClientState} (hdone : s.workerDone = true)
    (h : CStep s s') :
    s'.workerDone = true ∧ s'.recvError = s.recvError ∧ s'.sent = s.sent ∧
      s'.resultsClosed = s.resultsClosed := by
  cases h with
  | stopCall => exact ⟨hdone, rfl, rfl, rfl⟩
  | recvSend st h => rw [h] at hdone; cases hdone
  | recvFail streamErr closeErr h => rw [h] at hdone; cases hdone
  | recvDone ctxErr h hkind hcanc => rw [h] at hdone; cases hdone

/-- C8 (amended): once the receive loop of a client watch has exited
(`workerDone`, which the loop closes last, after storing any terminal error
and closing the results channel), no step of the system changes the stored
terminal error, the sent statuses, or the closed results channel — so the
stop function, which blocks on `<-workerDone` and then reads the stored
error, returns the same error on every call, with no double delivery and no
double close.  The stored error is nil on normal or caller-initiated
termination provided the stream's `Close` reported no error (the original
claim's unconditional "nil" is wrong when `Close` fails, see the
counterexample). -/
theorem c8_stop_idempotent_amended :
    (∀ s s' : ClientState, s.workerDone = true →
      Relation.ReflTransGen CStep s s' →
      s'.workerDone = true ∧ s'.recvError = s.recvError ∧
        s'.sent = s.sent ∧ s'.resultsClosed = s.resultsClosed) ∧
    (∀ s : ClientState, (applyRecvFail s none none).recvError = none) ∧
    (∀ (s : ClientState) (e : GoErr), s.stopped = true →
      errorsIs e GoErr.canceled = true →
      (applyRecvFail s (some e) none).recvError = none) := by
  refine ⟨?_, ?_, ?_⟩
  · intro s s' hdone hreach
    induction hreach with
    | refl => exact ⟨hdone, rfl, rfl, rfl⟩
    | tail hsteps hstep ih =>
      obtain ⟨ih1, ih2, ih3, ih4⟩ := ih
      obtain ⟨g1, g2, g3, g4⟩ := cstep_done_stable ih1 hstep
      exact ⟨g1, g2.trans ih2, g3.trans ih3, g4.trans ih4⟩
  · intro s
    rfl
  · intro s e hstop hcanc
    simp [applyRecvFail, hstop, hcanc]

/-- C8 amended witness: from a concrete state whose receive loop has
exited, a further `stop()` call (a `CStep.stopCall` step) leaves the stored
terminal error, the sent statuses and the closed results channel
unchanged. -/
theorem c8_stop_idempotent_amended_witness :
    ({ stopped := true, cancelled := true,
       recvError := some (GoErr.errorCode 13 "boom"), workerDone := true,
       resultsClosed := true, sent := [Status.serving] } : ClientState).workerDone
        = true ∧
    ({ stopped := true, cancelled := true,
       recvError := some (GoErr.errorCode 13 "boom"), workerDone := true,
       resultsClosed := true, sent := [Status.serving] } : ClientState).recvError
      = ({ stopped := false, cancelled := true,
           recvError := some (GoErr.errorCode 13 "boom"), workerDone := true,
           resultsClosed := true, sent := [Status.serving] } : ClientState).recvError ∧
    ({ stopped := true, cancelled := true,
       recvError := some (GoErr.errorCode 13 "boom"), workerDone := true,
       resultsClosed := true, sent := [Status.serving] } : ClientState).sent
      = ({ stopped := false, cancelled := true,
           recvError := some (GoErr.errorCode 13 "boom"), workerDone := true,
           resultsClosed := true, sent := [Status.serving] } : ClientState).sent ∧
    ({ stopped := true, cancelled := true,
       recvError := some (GoErr.errorCode 13 "boom"), workerDone := true,
       resultsClosed := true, sent := [Status.serving] } : ClientState).resultsClosed
      = ({ stopped := false, cancelled := true,
           recvError := some (GoErr.errorCode 13 "boom"), workerDone := true,
           resultsClosed := true, sent := [Status.serving] } : ClientState).resultsClosed :=
  c8_stop_idempotent_amended.1
    { stopped := false, cancelled := true,
      recvError := some (GoErr.errorCode 13 "boom"), workerDone := true,
      resultsClosed := true, sent := [Status.serving] }
    _ rfl
    (Relation.ReflTransGen.single (CStep.stopCall _))

/-- C8 counterexample: the parenthetical of the claim — that the stored
terminal error is nil whenever termination was normal or caller-initiated —
is false: here the stream ends normally (`stream.Err()` is nil, the `none`
argument below) without the stop function ever being called, but
`stream.Close()` fails, and the loop stores the close error, so every
`stop()` call returns a non-nil error. -/
theorem c8_stop_idempotent_cex :
    Relation.ReflTransGen CStep cInit
      (applyRecvFail cInit none (some (GoErr.errorCode 13 "close failed"))) ∧
    (applyRecvFail cInit none
      (some (GoErr.errorCode 13 "close failed"))).workerDone = true ∧
    (applyRecvFail cInit none
      (some (GoErr.errorCode 13 "close failed"))).stopped = false ∧
    (applyRecvFail cInit none
      (some (GoErr.errorCode 13 "close failed"))).recvError ≠ none := by
  refine ⟨Relation.ReflTransGen.single (CStep.recvFail cInit none _ rfl),
    rfl, rfl, by decide⟩

/-- C9 (amended): when termination is caller-initiated via the stop
function, a resulting `context.Canceled` error is suppressed, so the stored
terminal error (what `stop()` returns) is nil provided the stream's `Close`
reports no error; when the loop exits without the stop function having been
called first, the stream error is stored as-is — in particular a
cancellation-derived error (wrapping `context.Canceled` or
`context.DeadlineExceeded`) from a context that was cancelled or timed out
is stored, so the caller can distinguish the two terminations. -/
theorem c9_stop_error_amended :
    (∀ (s : ClientState) (e : GoErr), s.stopped = true →
      errorsIs e GoErr.canceled = true →
      (applyRecvFail s (some e) none).recvError = none ∧
      (applyRecvDone s GoErr.canceled).recvError = s.recvError) ∧
    (∀ (s : ClientState) (e : GoErr) (closeErr : Option GoErr),
      s.stopped = false →
      (applyRecvFail s (some e) closeErr).recvError = some e ∧
      (isCancellationDerived e = true →
        ∃ e', (applyRecvFail s (some e) closeErr).recvError = some e' ∧
          isCancellationDerived e' = true)) ∧
    (∀ (s : ClientState) (e : GoErr), s.stopped = false →
      (e = GoErr.canceled ∨ e = GoErr.deadlineExceeded) →
      (applyRecvDone s e).recvError = some e ∧
        isCancellationDerived e = true) := by
  refine ⟨?_, ?_, ?_⟩
  · intro s e hstop hcanc
    constructor
    · simp [applyRecvFail, hstop, hcanc]
    · simp [applyRecvDone, hstop, errorsIs]
  · intro s e closeErr hstop
    have h1 : (applyRecvFail s (some e) closeErr).recvError = some e := by
      simp [applyRecvFail, hstop]
    exact ⟨h1, fun hc => ⟨e, h1, hc⟩⟩
  · intro s e hstop hkind
    constructor
    · simp [applyRecvDone, hstop]
    · cases hkind with
      | inl h => subst h; decide
      | inr h => subst h; decide

/-- C9 amended witness: at a concrete state, a caller-initiated stop with a
clean close stores nil, while a context timeout without a stop stores the
`DeadlineExceeded` error. -/
theorem c9_stop_error_amended_witness :
    (applyRecvFail { cInit with stopped := true, cancelled := true }
      (some (GoErr.wrapped GoErr.canceled)) none).recvError = none ∧
    (applyRecvDone cInit GoErr.deadlineExceeded).recvError =
      some GoErr.deadlineExceeded :=
  ⟨(c9_stop_error_amended.1 { cInit with stopped := true, cancelled := true }
      (GoErr.wrapped GoErr.canceled) rfl (by decide)).1,
    (c9_stop_error_amended.2.2 cInit GoErr.deadlineExceeded rfl (Or.inr rfl)).1⟩

/-- C9 counterexample: the claim that a caller-initiated stop always makes
`stop()` return nil is false: here `stop()` is called first (so termination
is caller-initiated and the stream fails with an error wrapping
`context.Canceled`, which is suppressed), but `stream.Close()` fails and
the close error is stored, so `stop()` returns a non-nil error. -/
theorem c9_stop_error_cex :
    Relation.ReflTransGen CStep cInit
      (applyRecvFail { cInit with stopped := true, cancelled := true }
        (some (GoErr.wrapped GoErr.canceled))
        (some (GoErr.errorCode 8 "close: stream reset"))) ∧
    ({ cInit with stopped := true, cancelled := true } : ClientState).stopped
      = true ∧
    errorsIs (GoErr.wrapped GoErr.canceled) GoErr.canceled = true ∧
    (applyRecvFail { cInit with stopped := true, cancelled := true }
      (some (GoErr.wrapped GoErr.canceled))
      (some (GoErr.errorCode 8 "close: stream reset"))).recvError ≠ none := by
  refine ⟨?_, rfl, by decide, by decide⟩
  exact Relation.ReflTransGen.tail
    (Relation.ReflTransGen.single (CStep.stopCall cInit))
    (CStep.recvFail _ _ _ rfl)

theorem okStatuses_concat_ok (l : List Delivery) (st : Status) :
    okStatuses (l ++ [Delivery.ok st]) = okStatuses l ++ [st] := by
  simp [okStatuses]

theorem mem_of_getLast?Status {l : List Status} {a : Status}
    (h : l.getLast? = some a) : a ∈ l := by
  induction l with
  | nil => simp at h
  | cons b t ih =>
    cases t with
    | nil =>
      simp only [List.getLast?_singleton, Option.some_inj] at h
      simp [h]
    | cons c t2 =>
      rw [List.getLast?_cons_cons] at h
      exact List.mem_cons_of_mem _ (ih h)

theorem getLast?_isSome_of_ne_nil {l : List Status} (h : l ≠ []) :
    ∃ a, l.getLast? = some a := by
  cases hl : l.getLast? with
  | none => exact absurd (List.getLast?_eq_none_iff.mp hl) h
  | some a => exact ⟨a, rfl⟩

theorem getLast?_append_right {l t : List Status} (h : t ≠ []) :
    (l ++ t).getLast? = t.getLast? := by
  obtain ⟨a, t2, rfl⟩ := List.exists_cons_of_ne_nil h
  induction l with
  | nil => rfl
  | cons b l2 ih =>
    rw [List.cons_append]
    rw [getLast?_cons_of_ne_nil (by simp), ih]

/-- Inductive invariant of the writer/watcher system `WStep`, starting from
`wInit s0 ws`.  The substance is `hsub`: the deduplicated delivered statuses
embed into a non-empty "consumed" portion `W1` of the true status timeline
`s0 :: written`, the last consumed element is the last delivered status, and
any snapshot still in flight is either the last delivered status or lies in
the unconsumed remainder `T`. -/
structure WInv (s0 : Status) (ws : List Status) (s : WSys) : Prop where
  hseq : s.written ++ s.pending = ws
  herr : s.n.w.err = none
  hstop : s.n.w.stopped = false
  hndone : s.n.loop ≠ LoopCtl.done
  hstatus : (s0 :: s.written).getLast? = some s.n.w.status
  hdeliv : s.n.w.delivering = true ↔ s.n.loop ≠ LoopCtl.idle
  hidle : s.n.loop = LoopCtl.idle →
    (okStatuses s.n.delivered).getLast? = some s.n.w.status
  hrun : ∀ prev, s.n.loop = LoopCtl.run prev false →
    (okStatuses s.n.delivered).getLast? = some prev
  hsub : ∃ W1 T, s0 :: s.written = W1 ++ T ∧ W1 ≠ [] ∧
    (dedupConsec (okStatuses s.n.delivered)).Sublist W1 ∧
    W1.getLast? = (okStatuses s.n.delivered).getLast? ∧
    (∀ prev first snap serr, s.n.loop = LoopCtl.act prev first snap serr →
      serr = none ∧
      (some snap = (okStatuses s.n.delivered).getLast? ∨ snap ∈ T))

theorem winv_init (s0 : Status) (ws : List Status) :
    WInv s0 ws (wInit s0 ws) := by
  refine ⟨rfl, rfl, rfl, by simp [wInit, nInit], rfl, by simp [wInit, nInit],
    ?_, ?_, ?_⟩
  · intro _
    rfl
  · intro prev h
    simp [wInit, nInit] at h
  · refine ⟨[s0], [], rfl, by simp, ?_, rfl, ?_⟩
    · simp [wInit, nInit, okStatuses, dedupConsec]
    · intro prev first snap serr h
      simp [wInit, nInit] at h

theorem winv_write {s0 : Status} {ws : List Status} {s : WSys}
    (inv : WInv s0 ws s) (st : Status) (rest : List Status)
    (hp : s.pending = st :: rest) :
    WInv s0 ws
      { pending := rest, written := s.written ++ [st],
        n := applyNotify s.n st none } := by
  obtain ⟨hseq, herr, hstop, hndone, hstatus, hdeliv, hidle, hrun, hsub⟩ := inv
  have hseq2 : (s.written ++ [st]) ++ rest = ws := by
    rw [List.append_assoc, List.singleton_append, ← hp]
    exact hseq
  have hstatus2 : (s0 :: (s.written ++ [st])).getLast? = some st := by
    rw [show s0 :: (s.written ++ [st]) = (s0 :: s.written) ++ [st] from rfl,
      List.getLast?_concat]
  obtain ⟨W1, T, heq, hW1ne, hsl, hlast, hact⟩ := hsub
  have heq2 : s0 :: (s.written ++ [st]) = W1 ++ (T ++ [st]) := by
    rw [show s0 :: (s.written ++ [st]) = (s0 :: s.written) ++ [st] from rfl,
      heq, List.append_assoc]
  by_cases hss : s.n.w.status = st
  · have happ : applyNotify s.n st none = s.n := by
      simp [applyNotify, notify, herr, hss]
    rw [happ]
    refine ⟨hseq2, herr, hstop, hndone, by rw [hss]; exact hstatus2,
      hdeliv, hidle, hrun, ?_⟩
    refine ⟨W1, T ++ [st], heq2, hW1ne, hsl, hlast, ?_⟩
    intro p f sn se h
    obtain ⟨h1, h2⟩ := hact p f sn se h
    exact ⟨h1, h2.imp id (fun hm => List.mem_append_left _ hm)⟩
  · by_cases hdl : s.n.w.delivering = false
    · have happ : applyNotify s.n st none =
          { s.n with
              w := { s.n.w with status := st, err := none, delivering := true }
              loop := LoopCtl.run Status.unknown true } := by
        simp [applyNotify, notify, herr, hss, hstop, hdl]
      rw [happ]
      refine ⟨hseq2, rfl, hstop, by simp, hstatus2, by simp, ?_, ?_, ?_⟩
      · intro h
        simp at h
      · intro p h
        simp at h
      · refine ⟨W1, T ++ [st], heq2, hW1ne, hsl, hlast, ?_⟩
        intro p f sn se h
        simp at h
    · have hdt : s.n.w.delivering = true := by
        revert hdl
        cases s.n.w.delivering <;> simp
      have hnidle : s.n.loop ≠ LoopCtl.idle := hdeliv.mp hdt
      have happ : applyNotify s.n st none =
          { s.n with w := { s.n.w with status := st, err := none } } := by
        simp [applyNotify, notify, herr, hss, hstop, hdl, hdt]
      rw [happ]
      refine ⟨hseq2, rfl, hstop, hndone, hstatus2,
        ⟨fun _ => hnidle, fun _ => hdt⟩, ?_, ?_, ?_⟩
      · intro h
        exact absurd h hnidle
      · intro p h
        exact hrun p h
      · refine ⟨W1, T ++ [st], heq2, hW1ne, hsl, hlast, ?_⟩
        intro p f sn se h
        obtain ⟨h1, h2⟩ := hact p f sn se h
        exact ⟨h1, h2.imp id (fun hm => List.mem_append_left _ hm)⟩

theorem winv_snap {s0 : Status} {ws : List Status} {s : WSys}
    (inv : WInv s0 ws s) (prev : Status) (first : Bool)
    (hloop : s.n.loop = LoopCtl.run prev first) :
    WInv s0 ws { s with n := applySnap s.n prev first } := by
  obtain ⟨hseq, herr, hstop, hndone, hstatus, hdeliv, hidle, hrun, hsub⟩ := inv
  obtain ⟨W1, T, heq, hW1ne, hsl, hlast, hact⟩ := hsub
  by_cases hc : first = false ∧ s.n.w.status = prev ∧ s.n.w.err = none
  · have happ : applySnap s.n prev first =
        { s.n with
            w := { s.n.w with delivering := false }
            loop := LoopCtl.idle } := by
      simp only [applySnap, if_pos hc]
    rw [happ]
    obtain ⟨hf, hsp, -⟩ := hc
    refine ⟨hseq, herr, hstop, by simp, hstatus, by simp, ?_, ?_, ?_⟩
    · intro _
      have := hrun prev (by rw [hloop, hf])
      rw [this, hsp]
    · intro p h
      simp at h
    · refine ⟨W1, T, heq, hW1ne, hsl, hlast, ?_⟩
      intro p f sn se h
      simp at h
  · have happ : applySnap s.n prev first =
        { s.n with
            loop := LoopCtl.act prev first s.n.w.status s.n.w.err } := by
      simp only [applySnap, if_neg hc]
    rw [happ]
    have hdt : s.n.w.delivering = true := hdeliv.mpr (by rw [hloop]; simp)
    refine ⟨hseq, herr, hstop, by simp, hstatus,
      ⟨fun _ => by simp, fun _ => hdt⟩, ?_, ?_, ?_⟩
    · intro h
      simp at h
    · intro p h
      simp at h
    · refine ⟨W1, T, heq, hW1ne, hsl, hlast, ?_⟩
      intro p f sn se h
      simp only [LoopCtl.act.injEq] at h
      obtain ⟨-, -, h3, h4⟩ := h
      refine ⟨by rw [← h4]; exact herr, ?_⟩
      subst h3
      cases T with
      | nil =>
        left
        rw [List.append_nil] at heq
        rw [← hlast, ← heq]
        exact hstatus.symm
      | cons t ts =>
        right
        rw [heq, getLast?_append_right (by simp)] at hstatus
        exact mem_of_getLast?Status hstatus

theorem winv_act {s0 : Status} {ws : List Status} {s : WSys}
    (inv : WInv s0 ws s) (prev : Status) (first : Bool) (snap : Status)
    (serr : Option GoErr) (hloop : s.n.loop = LoopCtl.act prev first snap serr) :
    WInv s0 ws { s with n := applyAct s.n snap serr } := by
  obtain ⟨hseq, herr, hstop, hndone, hstatus, hdeliv, hidle, hrun, hsub⟩ := inv
  obtain ⟨W1, T, heq, hW1ne, hsl, hlast, hact⟩ := hsub
  obtain ⟨hse, hd⟩ := hact prev first snap serr hloop
  subst hse
  have happ : applyAct s.n snap none =
      { s.n with
          delivered := s.n.delivered ++ [Delivery.ok snap]
          loop := LoopCtl.run snap false } := by
    simp only [applyAct, hstop]
    simp
  rw [happ]
  have hdt : s.n.w.delivering = true := hdeliv.mpr (by rw [hloop]; simp)
  have hok : okStatuses (s.n.delivered ++ [Delivery.ok snap]) =
      okStatuses s.n.delivered ++ [snap] := okStatuses_concat_ok _ _
  refine ⟨hseq, herr, hstop, by simp, hstatus,
    ⟨fun _ => by simp, fun _ => hdt⟩, ?_, ?_, ?_⟩
  · intro h
    simp at h
  · intro p h
    simp only [LoopCtl.run.injEq] at h
    rw [hok, List.getLast?_concat, h.1]
  · by_cases hsnap : some snap = (okStatuses s.n.delivered).getLast?
    · have hded : dedupConsec (okStatuses s.n.delivered ++ [snap]) =
          dedupConsec (okStatuses s.n.delivered) :=
        dedupConsec_concat_eq hsnap.symm
      refine ⟨W1, T, heq, hW1ne, ?_, ?_, ?_⟩
      · rw [hok, hded]
        exact hsl
      · rw [hok, List.getLast?_concat, hlast, ← hsnap]
      · intro p f sn se h
        simp at h
    · have hdT : snap ∈ T := by
        rcases hd with hl | hr
        · exact absurd hl hsnap
        · exact hr
      obtain ⟨A, B, hT⟩ := List.append_of_mem hdT
      subst hT
      obtain ⟨y, hy⟩ := getLast?_isSome_of_ne_nil hW1ne
      have hLy : (okStatuses s.n.delivered).getLast? = some y := by
        rw [← hlast]
        exact hy
      have hsnapy : snap ≠ y := fun hcontra => hsnap (by rw [hcontra, hLy])
      have hded : dedupConsec (okStatuses s.n.delivered ++ [snap]) =
          dedupConsec (okStatuses s.n.delivered) ++ [snap] :=
        dedupConsec_concat_ne hLy hsnapy
      refine ⟨W1 ++ A ++ [snap], B, ?_, by simp, ?_, ?_, ?_⟩
      · rw [heq]
        simp
      · rw [hok, hded, List.append_assoc]
        exact List.Sublist.append hsl (List.sublist_append_right A [snap])
      · rw [List.getLast?_concat, hok, List.getLast?_concat]
      · intro p f sn se h
        simp at h

theorem winv_step {s0 : Status} {ws : List Status} {s s' : WSys}
    (inv : WInv s0 ws s) (h : WStep s s') : WInv s0 ws s' := by
  cases h with
  | writeStep st rest hp => exact winv_write inv st rest hp
  | snapStep prev first hloop => exact winv_snap inv prev first hloop
  | actStep prev first snap serr hloop => exact winv_act inv prev first snap serr hloop

theorem winv_reachable {s0 : Status} {ws : List Status} {s : WSys}
    (hreach : Relation.ReflTransGen WStep (wInit s0 ws) s) :
    WInv s0 ws s := by
  induction hreach with
  | refl => exact winv_init s0 ws
  | tail hsteps hstep ih => exact winv_step ih hstep

/-- C2 (amended): for every sequence of `SetStatus` calls on a watched name
and every interleaving with the watcher's delivery loop, once all writes
have been performed and the delivery loop has quiesced, the sequence of
statuses delivered to the watcher, with consecutive duplicates removed, is
a subsequence of the initial status at subscription followed by the written
statuses, and the last delivered status equals the last element of that
timeline (the final written status whenever at least one write occurred).
The original claim must prepend the initial status: the first delivery
reports the status at subscription creation, which is not written by
`SetStatus`. -/
theorem c2_delivered_subsequence_amended (s0 : Status) (ws : List Status)
    (s : WSys) (hreach : Relation.ReflTransGen WStep (wInit s0 ws) s)
    (hdone : s.pending = []) (hq : s.n.loop = LoopCtl.idle) :
    (dedupConsec (okStatuses s.n.delivered)).Sublist (s0 :: ws) ∧
    (dedupConsec (okStatuses s.n.delivered)).getLast? =
      (s0 :: ws).getLast? := by
  have inv := winv_reachable hreach
  obtain ⟨W1, T, heq, hW1ne, hsl, hlast, hact⟩ := inv.hsub
  have hwr : s.written = ws := by
    have h := inv.hseq
    rw [hdone, List.append_nil] at h
    exact h
  constructor
  · rw [← hwr, heq]
    exact hsl.trans (List.sublist_append_left W1 T)
  · rw [getLast?_dedupConsec, ← hwr, inv.hidle hq]
    exact inv.hstatus.symm

/-- C2 amended witness: concrete instance at the initial quiescent state of
a watcher created with status Serving and no pending writes. -/
theorem c2_delivered_subsequence_amended_witness :
    (dedupConsec (okStatuses (wInit Status.serving []).n.delivered)).Sublist
      [Status.serving] ∧
    (dedupConsec (okStatuses (wInit Status.serving []).n.delivered)).getLast?
      = ([Status.serving] : List Status).getLast? :=
  c2_delivered_subsequence_amended Status.serving [] _
    Relation.ReflTransGen.refl rfl rfl

/-- C2 counterexample: the claim as stated — that the deduplicated delivered
sequence is a subsequence of the statuses written by `SetStatus` — is false,
because the initial delivery reports the status at subscription creation,
which `SetStatus` never wrote: a watcher created at Serving that observes
the single write NotServing delivers Serving, NotServing, and
`[Serving, NotServing]` is not a subsequence of the written `[NotServing]`. -/
theorem c2_delivered_subsequence_cex :
    ∃ s : WSys,
      Relation.ReflTransGen WStep (wInit Status.serving [Status.notServing]) s ∧
      s.pending = [] ∧ s.n.loop = LoopCtl.idle ∧
      ¬ (dedupConsec (okStatuses s.n.delivered)).Sublist s.written := by
  refine ⟨{ pending := [], written := [Status.notServing],
            n := { w := { stopped := false, delivering := false,
                          status := Status.notServing, err := none },
                   loop := LoopCtl.idle,
                   delivered := [Delivery.ok Status.serving,
                                 Delivery.ok Status.notServing],
                   stopCalled := false } }, ?_, rfl, rfl, by decide⟩
  exact Relation.ReflTransGen.tail (Relation.ReflTransGen.tail
    (Relation.ReflTransGen.tail (Relation.ReflTransGen.single
      (WStep.writeStep (wInit Status.serving [Status.notServing])
        Status.notServing [] rfl))
      (WStep.snapStep _ Status.unknown true rfl))
    (WStep.actStep _ Status.unknown true Status.notServing none rfl))
    (WStep.snapStep _ Status.notServing false rfl)

theorem failCount_append (l l2 : List Delivery) :
    failCount (l ++ l2) = failCount l + failCount l2 := by
  simp [failCount, List.countP_append]

theorem failCount_zero_of_no_fail {l : List Delivery}
    (h : ∀ e, Delivery.fail e ∉ l) : failCount l = 0 := by
  rw [failCount, List.countP_eq_zero]
  intro d hd
  cases d with
  | ok st => simp [isFail]
  | fail e => exact absurd hd (h e)

/-- Inductive invariant of the general notifier system `NStep`: at most one
terminal error delivery ever occurs, it is always the last delivery, it
forces the stopped flag and a finished loop, and a finished loop with no
error delivery can only result from a `stop()` call. -/
structure NInv (s : NState) : Prop where
  n1 : s.w.delivering = true ↔ s.loop ≠ LoopCtl.idle
  n2 : ∀ e, Delivery.fail e ∈ s.delivered →
    s.delivered.getLast? = some (Delivery.fail e) ∧
      s.loop = LoopCtl.done ∧ s.w.stopped = true
  n3 : failCount s.delivered ≤ 1
  n4 : s.w.err ≠ none → s.loop ≠ LoopCtl.idle
  n5 : s.loop = LoopCtl.done → failCount s.delivered = 1 ∨ s.stopCalled = true
  n6 : s.w.stopped = true → s.stopCalled = true ∨ failCount s.delivered = 1

theorem ninv_init (s0 : Status) : NInv (nInit s0) := by
  refine ⟨by simp [nInit], ?_, by simp [nInit, failCount, List.countP_cons, isFail],
    by simp [nInit], by simp [nInit], by simp [nInit]⟩
  intro e hmem
  simp [nInit] at hmem

theorem ninv_notify {s : NState} (inv : NInv s) (st : Status)
    (e : Option GoErr) : NInv (applyNotify s st e) := by
  obtain ⟨n1, n2, n3, n4, n5, n6⟩ := inv
  by_cases hno : s.w.err ≠ none ∨ (e = none ∧ s.w.status = st) ∨
      s.w.stopped = true
  · have happ : applyNotify s st e = s := by
      unfold applyNotify notify
      rcases hno with h | h | h
      · simp [h]
      · rcases h with ⟨he, hs⟩
        by_cases h1 : s.w.err ≠ none
        · simp [h1]
        · simp [h1, he, hs]
      · by_cases h1 : s.w.err ≠ none
        · simp [h1]
        · by_cases h2 : e = none ∧ s.w.status = st
          · simp [h1, h2]
          · simp [h1, h2, h]
    rw [happ]
    exact ⟨n1, n2, n3, n4, n5, n6⟩
  · push_neg at hno
    obtain ⟨h1, h2i, h3o⟩ := hno
    have h2 : ¬(e = none ∧ s.w.status = st) := fun hc => (h2i hc.1) hc.2
    have h3 : s.w.stopped = false := by
      revert h3o
      cases s.w.stopped <;> simp
    by_cases hdl : s.w.delivering = false
    · have hidle : s.loop = LoopCtl.idle := by
        by_contra hne
        rw [n1.mpr hne] at hdl
        cases hdl
      have happ : applyNotify s st e =
          { s with
              w := { s.w with status := st, err := e, delivering := true }
              loop := LoopCtl.run Status.unknown true } := by
        unfold applyNotify notify
        simp [h1, h2, h3, hdl]
      rw [happ]
      have hnofail : ∀ e0, Delivery.fail e0 ∉ s.delivered := by
        intro e0 hmem
        have := (n2 e0 hmem).2.1
        rw [hidle] at this
        cases this
      refine ⟨by simp, ?_, n3, by simp, by simp, ?_⟩
      · intro e0 hmem
        exact absurd hmem (hnofail e0)
      · intro hcontra
        simp at hcontra
        rw [hcontra] at h3
        cases h3
    · have hdt : s.w.delivering = true := by
        revert hdl
        cases s.w.delivering <;> simp
      have hnidle : s.loop ≠ LoopCtl.idle := n1.mp hdt
      have happ : applyNotify s st e =
          { s with w := { s.w with status := st, err := e } } := by
        unfold applyNotify notify
        simp [h1, h2, h3, hdl, hdt]
      rw [happ]
      refine ⟨⟨fun _ => hnidle, fun _ => hdt⟩, ?_, n3, fun _ => hnidle,
        n5, n6⟩
      intro e0 hmem
      exact n2 e0 hmem

theorem ninv_stop {s : NState} (inv : NInv s) : NInv (applyStop s) := by
  obtain ⟨n1, n2, n3, n4, n5, n6⟩ := inv
  refine ⟨n1, ?_, n3, n4, ?_, ?_⟩
  · intro e hmem
    exact ⟨(n2 e hmem).1, (n2 e hmem).2.1, rfl⟩
  · intro _
    exact Or.inr rfl
  · intro _
    exact Or.inl rfl

theorem ninv_snap {s : NState} (inv : NInv s) (prev : Status) (first : Bool)
    (hloop : s.loop = LoopCtl.run prev first) :
    NInv (applySnap s prev first) := by
  obtain ⟨n1, n2, n3, n4, n5, n6⟩ := inv
  have hnofail : ∀ e0, Delivery.fail e0 ∉ s.delivered := by
    intro e0 hmem
    have := (n2 e0 hmem).2.1
    rw [hloop] at this
    cases this
  by_cases hc : first = false ∧ s.w.status = prev ∧ s.w.err = none
  · have happ : applySnap s prev first =
        { s with
            w := { s.w with delivering := false }
            loop := LoopCtl.idle } := by
      simp only [applySnap, if_pos hc]
    rw [happ]
    refine ⟨by simp, ?_, n3, ?_, by simp, n6⟩
    · intro e0 hmem
      exact absurd hmem (hnofail e0)
    · intro hcontra
      rw [hc.2.2] at hcontra
      exact absurd rfl hcontra
  · have happ : applySnap s prev first =
        { s with loop := LoopCtl.act prev first s.w.status s.w.err } := by
      simp only [applySnap, if_neg hc]
    rw [happ]
    have hdt : s.w.delivering = true := n1.mpr (by rw [hloop]; simp)
    refine ⟨⟨fun _ => by simp, fun _ => hdt⟩, ?_, n3, fun _ => by simp,
      by simp, n6⟩
    intro e0 hmem
    exact absurd hmem (hnofail e0)

theorem ninv_act {s : NState} (inv : NInv s) (prev : Status) (first : Bool)
    (snap : Status) (serr : Option GoErr)
    (hloop : s.loop = LoopCtl.act prev first snap serr) :
    NInv (applyAct s snap serr) := by
  obtain ⟨n1, n2, n3, n4, n5, n6⟩ := inv
  have hnofail : ∀ e0, Delivery.fail e0 ∉ s.delivered := by
    intro e0 hmem
    have := (n2 e0 hmem).2.1
    rw [hloop] at this
    cases this
  have hcount0 : failCount s.delivered = 0 := failCount_zero_of_no_fail hnofail
  have hdt : s.w.delivering = true := n1.mpr (by rw [hloop]; simp)
  cases serr with
  | some e =>
    by_cases hst : s.w.stopped = false
    · have happ : applyAct s snap (some e) =
          { s with
              w := { s.w with stopped := true }
              delivered := s.delivered ++ [Delivery.fail e]
              loop := LoopCtl.done } := by
        simp [applyAct, hst]
      rw [happ]
      have hcount1 : failCount (s.delivered ++ [Delivery.fail e]) = 1 := by
        rw [failCount_append, hcount0]
        simp [failCount, List.countP_cons, isFail]
      refine ⟨⟨fun _ => by simp, fun _ => hdt⟩, ?_, by simp [hcount1], ?_, ?_, ?_⟩
      · intro e0 hmem
        rw [List.mem_append] at hmem
        rcases hmem with hm | hm
        · exact absurd hm (hnofail e0)
        · simp only [List.mem_singleton, Delivery.fail.injEq] at hm
          subst hm
          exact ⟨List.getLast?_concat _, rfl, rfl⟩
      · intro _
        simp
      · intro _
        exact Or.inl hcount1
      · intro _
        exact Or.inr hcount1
    · have hstt : s.w.stopped = true := by
        revert hst
        cases s.w.stopped <;> simp
      have happ : applyAct s snap (some e) = { s with loop := LoopCtl.done } := by
        simp [applyAct, hstt]
      rw [happ]
      refine ⟨⟨fun _ => by simp, fun _ => hdt⟩, ?_, n3, fun _ => by simp,
        ?_, n6⟩
      · intro e0 hmem
        exact absurd hmem (hnofail e0)
      · intro _
        rcases n6 hstt with h | h
        · exact Or.inr h
        · exact Or.inl h
  | none =>
    by_cases hst : s.w.stopped = true
    · have happ : applyAct s snap none = { s with loop := LoopCtl.done } := by
        simp [applyAct, hst]
      rw [happ]
      refine ⟨⟨fun _ => by simp, fun _ => hdt⟩, ?_, n3, fun _ => by simp,
        ?_, n6⟩
      · intro e0 hmem
        exact absurd hmem (hnofail e0)
      · intro _
        rcases n6 hst with h | h
        · exact Or.inr h
        · exact Or.inl h
    · have hstf : s.w.stopped = false := by
        revert hst
        cases s.w.stopped <;> simp
      have happ : applyAct s snap none =
          { s with
              delivered := s.delivered ++ [Delivery.ok snap]
              loop := LoopCtl.run snap false } := by
        simp [applyAct, hstf]
      rw [happ]
      have hcount : failCount (s.delivered ++ [Delivery.ok snap]) = 0 := by
        rw [failCount_append, hcount0]
        simp [failCount, List.countP_cons, isFail]
      refine ⟨⟨fun _ => by simp, fun _ => hdt⟩, ?_, by rw [hcount]; decide,
        fun _ => by simp, by simp, ?_⟩
      · intro e0 hmem
        rw [List.mem_append] at hmem
        rcases hmem with hm | hm
        · exact absurd hm (hnofail e0)
        · simp at hm
      · intro hcontra
        rw [hcontra] at hstf
        cases hstf

theorem ninv_step {s s' : NState} (inv : NInv s) (h : NStep s s') :
    NInv s' := by
  cases h with
  | notifyStep st e => exact ninv_notify inv st e
  | stopStep => exact ninv_stop inv
  | snapStep prev first hloop => exact ninv_snap inv prev first hloop
  | actStep prev first snap serr hloop =>
    exact ninv_act inv prev first snap serr hloop

theorem ninv_reachable {s0 : Status} {s : NState}
    (hreach : Relation.ReflTransGen NStep (nInit s0) s) : NInv s := by
  induction hreach with
  | refl => exact ninv_init s0
  | tail hsteps hstep ih => exact ninv_step ih hstep

theorem nstep_done_stable {s s' : NState} (hdone : s.loop = LoopCtl.done)
    (herr : s.w.err ≠ none) (h : NStep s s') :
    s'.loop = LoopCtl.done ∧ s'.w.err ≠ none ∧ s'.delivered = s.delivered := by
  cases h with
  | notifyStep st e =>
    have hnoop : notify s.w st e = (s.w, false) := by
      unfold notify
      rw [if_pos herr]
    have happ : applyNotify s st e = s := by
      unfold applyNotify
      rw [hnoop]
      simp
    rw [happ]
    exact ⟨hdone, herr, rfl⟩
  | stopStep => exact ⟨hdone, herr, rfl⟩
  | snapStep prev first hloop => rw [hdone] at hloop; cases hloop
  | actStep prev first snap serr hloop => rw [hdone] at hloop; cases hloop

/-- C1 (amended): once a non-nil error has been recorded via `notify`, no
further state changes are accepted (every later `notify` call is a no-op);
at most one terminal delivery — the error — is ever made (it is single-won
by the compare-and-swap on the stopped flag), it is always the last
delivery, and after it no delivery of any kind occurs; and when the
delivery loop has finished with an error recorded and `stop()` was never
called, the error was delivered exactly once.  The original claim's
unconditional "exactly one" fails when a racing `stop()` lands between the
recording of the error and the delivery attempt: the compare-and-swap then
fails and the terminal delivery is suppressed (see the counterexample). -/
theorem c1_error_terminal_amended (s0 : Status) (s : NState)
    (hreach : Relation.ReflTransGen NStep (nInit s0) s) :
    (∀ (st : Status) (e : Option GoErr), s.w.err ≠ none →
      notify s.w st e = (s.w, false)) ∧
    failCount s.delivered ≤ 1 ∧
    (∀ e, Delivery.fail e ∈ s.delivered →
      s.delivered.getLast? = some (Delivery.fail e)) ∧
    (s.loop = LoopCtl.done → s.w.err ≠ none → s.stopCalled = false →
      failCount s.delivered = 1) := by
  have inv := ninv_reachable hreach
  refine ⟨?_, inv.n3, ?_, ?_⟩
  · intro st e herr
    unfold notify
    rw [if_pos herr]
  · intro e hmem
    exact (inv.n2 e hmem).1
  · intro hdone _ hstopc
    rcases inv.n5 hdone with h | h
    · exact h
    · rw [hstopc] at h
      cases h

/-- C1 amended witness: the no-delivery bounds instantiated at the initial
subscription state. -/
theorem c1_error_terminal_amended_witness :
    failCount (nInit Status.serving).delivered ≤ 1 :=
  (c1_error_terminal_amended Status.serving _ Relation.ReflTransGen.refl).2.1

/-- C1 counterexample: the claim that once a non-nil error is recorded
exactly one terminal delivery (the error) is made is false: here the
cancellation error is recorded by `notify` (which spawns the delivery
loop), then `stop()` is called before the loop reaches its snapshot, so the
loop's `CompareAndSwap(false, true)` fails and the loop exits without ever
delivering the error — and from that state no delivery can ever occur. -/
theorem c1_error_terminal_cex :
    ∃ s : NState, Relation.ReflTransGen NStep (nInit Status.serving) s ∧
      s.w.err = some GoErr.canceled ∧ s.loop = LoopCtl.done ∧
      failCount s.delivered = 0 ∧
      ∀ s' : NState, Relation.ReflTransGen NStep s s' →
        failCount s'.delivered = 0 := by
  refine ⟨{ w := { stopped := true, delivering := true,
                   status := Status.serving, err := some GoErr.canceled },
            loop := LoopCtl.done,
            delivered := [Delivery.ok Status.serving],
            stopCalled := true }, ?_, rfl, rfl, by decide, ?_⟩
  · exact Relation.ReflTransGen.tail (Relation.ReflTransGen.tail
      (Relation.ReflTransGen.tail (Relation.ReflTransGen.single
        (NStep.notifyStep (nInit Status.serving) Status.serving
          (some GoErr.canceled)))
        (NStep.stopStep _))
      (NStep.snapStep _ Status.unknown true rfl))
      (NStep.actStep _ Status.unknown true Status.serving
        (some GoErr.canceled) rfl)
  · intro s' hreach
    have key : s'.loop = LoopCtl.done ∧ s'.w.err ≠ none ∧
        s'.delivered = [Delivery.ok Status.serving] := by
      induction hreach with
      | refl => exact ⟨rfl, by decide, rfl⟩
      | tail hsteps hstep ih =>
        obtain ⟨ih1, ih2, ih3⟩ := ih
        obtain ⟨g1, g2, g3⟩ := nstep_done_stable ih1 ih2 hstep
        exact ⟨g1, g2, g3.trans ih3⟩
    rw [key.2.2]
    decide

end GrpcHealth
